import Mathlib

/-!
Shallow embedding of the matrix-multiplication kernels of the
`matrix-mult` repository (plain C, pthread, OpenCL and MPI variants),
together with proofs about them.

Modelling conventions:
* A row-major matrix buffer is a total function `Nat → Int` (for the
  `int`-element variants) or `Nat → Nat` (for the `uint64_t` variants).
* C `int` arithmetic is modelled as two's-complement 32-bit wraparound:
  `wrap32` reduces an integer into `[-2^31, 2^31)`.  C `uint64_t`
  arithmetic is modelled on `Nat` with explicit reduction `% 2^64`.
* A C store `buf[idx] = v` is the functional update `store buf idx v`;
  loops become folds over `List.range`, in program order, so that
  overlapping writes keep their last-write-wins semantics.
* Thread/process creation failures and `malloc` failures are resource
  conditions of the environment, not properties of the inputs; the
  models take the successful-resource path.  The pthread worker rows are
  pairwise disjoint, so sequentialising the workers in index order is
  faithful to the concurrent execution on the inputs considered here.
-/

/-- Two's-complement wraparound of C `int`: reduce into `[-2^31, 2^31)`.
The literals are 2^31 = 2147483648 and 2^32 = 4294967296. -/
def wrap32 (x : Int) : Int :=
  (x + 2147483648) % 4294967296 - 2147483648

/-- The flat output index used by every kernel: `result[i * m + j]`,
where `m` is the ROW count of the first matrix (the stride is `m`, not
the column count `n`).  From `result[i * m + j] = tmp` in
`mat_mult` (src/c/matmult.c), `mat_mult_work` (matmult-pthread.c),
`mat_mult_mpi` (src/mpi/matmult-mpi.c) and `result[i * M + j]` in the
OpenCL kernels. -/
def resultIndex (stride i j : Nat) : Nat := i * stride + j

/-- Functional update: the C store `buf[idx] = v`. -/
def store {α : Type} (buf : Nat → α) (idx : Nat) (v : α) : Nat → α :=
  fun p => if p = idx then v else buf p

/-- One row of writes: `for (j = 0; j < n; j++) result[i*stride+j] = v i j`. -/
def writeRow {α : Type} (n stride : Nat) (v : Nat → Nat → α) (i : Nat)
    (buf : Nat → α) : Nat → α :=
  (List.range n).foldl (fun b j => store b (resultIndex stride i j) (v i j)) buf

/-- Writes for an explicit list of row indices, in order. -/
def writeRowsList {α : Type} (n stride : Nat) (v : Nat → Nat → α)
    (rows : List Nat) (buf : Nat → α) : Nat → α :=
  rows.foldl (fun b i => writeRow n stride v i b) buf

/-- Writes for the row range `[lo, hi)`:
`for (i = lo; i < hi; i++) for (j = 0; j < n; j++) ...`. -/
def writeRows {α : Type} (lo hi n stride : Nat) (v : Nat → Nat → α)
    (buf : Nat → α) : Nat → α :=
  writeRowsList n stride v ((List.range (hi - lo)).map (lo + ·)) buf

/-- The inner reduction loop of the `int`-element kernels
(src/c/matmult.c lines 118-127 and the identical loop of the pthread
worker and the OpenCL `matmult` kernel):
`int tmp = 0; for (k = 0; k < w; k++) tmp += mat1[i*w+k] * mat2[k*n+j];`
with 32-bit wraparound on the product and on each accumulation. -/
def dot (mat1 mat2 : Nat → Int) (w n i j : Nat) : Int :=
  (List.range w).foldl
    (fun tmp k => wrap32 (tmp + wrap32 (mat1 (i * w + k) * mat2 (k * n + j)))) 0

/-- The inner reduction loop of the `uint64_t`-element kernels
(src/mpi/matmult-mpi.c lines 139-150 and the uint64 pthread worker):
`uint64_t tmp = 0; for (k = 0; k < w; k++) tmp += mat1[i*w+k] * mat2[k*n+j];`
with the C-defined modulo-2^64 unsigned arithmetic. -/
def dot64 (mat1 mat2 : Nat → Nat) (w n i j : Nat) : Nat :=
  (List.range w).foldl
    (fun tmp k => (tmp + mat1 (i * w + k) * mat2 (k * n + j) % 2 ^ 64) % 2 ^ 64) 0

/-- `mat_mult` of src/c/matmult.c (lines 111-134): returns `-1` when
`n != w`, otherwise writes `result[i*m+j] = tmp` for every `i < m`,
`j < n` and returns `0`.  The pair is (return code, final buffer). -/
def mat_mult (mat1 mat2 result : Nat → Int) (m n w : Nat) :
    Int × (Nat → Int) :=
  if n ≠ w then (-1, result)
  else (0, writeRows 0 m n m (fun i j => dot mat1 mat2 w n i j) result)

/-- The row range computed by one pthread worker, `mat_mult_work` of
matmult-pthread.c (lines 126-165): `step = m / threads`; if `step == 0`
then `step = 1` and a worker with `idx >= m` exits; otherwise the worker
runs rows `i` from `idx*step` while `i < (idx+1)*step && i < m`. -/
def work_step (m threads : Nat) : Nat :=
  if m / threads = 0 then 1 else m / threads

/-- The set of row indices the worker `idx` of `mat_mult_work` computes. -/
def workRange (m threads idx : Nat) : Finset Nat :=
  if m / threads = 0 ∧ m ≤ idx then ∅
  else Finset.Ico (idx * work_step m threads)
    (min ((idx + 1) * work_step m threads) m)

/-- The buffer effect of one pthread worker, `mat_mult_work`. -/
def mat_mult_work (mat1 mat2 : Nat → Int) (m n w threads idx : Nat)
    (buf : Nat → Int) : Nat → Int :=
  if m / threads = 0 ∧ m ≤ idx then buf
  else writeRows (idx * work_step m threads)
    (min ((idx + 1) * work_step m threads) m) n m
    (fun i j => dot mat1 mat2 w n i j) buf

/-- `mat_mult_pthread` of matmult-pthread.c (lines 212-252): returns `-1`
when `n != w`, otherwise launches `threads` workers and joins them all.
The workers' row ranges are pairwise disjoint, so their combined effect
on the output buffer is the fold of the per-worker effects. -/
def mat_mult_pthread (mat1 mat2 result : Nat → Int) (m n w threads : Nat) :
    Int × (Nat → Int) :=
  if n ≠ w then (-1, result)
  else
    (0, (List.range threads).foldl
      (fun b idx => mat_mult_work mat1 mat2 m n w threads idx b) result)

/-- The `uint64_t` single-process reference multiply: the same loop nest
as `mat_mult` of src/c/matmult.c with the element type of the MPI and
uint64-pthread variants. -/
def mat_mult64 (mat1 mat2 result : Nat → Nat) (m n w : Nat) :
    Int × (Nat → Nat) :=
  if n ≠ w then (-1, result)
  else (0, writeRows 0 m n m (fun i j => dot64 mat1 mat2 w n i j) result)

/-- The left-operand slice MPI_Scatter delivers to rank `r`: elements
`[r*nb_sub, (r+1)*nb_sub)` of `mat1`, where `nb_sub = m*n/world_size`. -/
def mpi_rank_slice (mat1 : Nat → Nat) (nb_sub r : Nat) : Nat → Nat :=
  fun x => mat1 (r * nb_sub + x)

/-- The local partial result of rank `r` in `mat_mult_mpi`
(src/mpi/matmult-mpi.c lines 139-155): a fresh buffer `res` written at
`res[i*m+j]` for `i < m/world_size`, `j < n`, from the scattered slice
of `mat1` and the broadcast `mat2`. -/
def mpi_local_res (mat1 mat2 : Nat → Nat) (m n w world_size r : Nat) :
    Nat → Nat :=
  writeRows 0 (m / world_size) n m
    (fun i j =>
      dot64 (mpi_rank_slice mat1 (m * n / world_size) r) mat2 w n i j)
    (fun _ => 0)

/-- `mat_mult_mpi` of src/mpi/matmult-mpi.c (lines 111-163): returns `-1`
when `n != w`; otherwise scatters `mat1`, broadcasts `mat2`, each rank
computes its slice, and MPI_Gather concatenates the `nb_sub`-element
partial buffers in rank order into `result`. -/
def mat_mult_mpi (mat1 mat2 result : Nat → Nat) (m n w world_size : Nat) :
    Int × (Nat → Nat) :=
  if n ≠ w then (-1, result)
  else
    (0, fun p =>
      if p < world_size * (m * n / world_size) then
        mpi_local_res mat1 mat2 m n w world_size
          (p / (m * n / world_size)) (p % (m * n / world_size))
      else result p)

/-- The startup check of `main` in src/mpi/matmult-mpi.c (lines 328-339):
`if (m % world_size) MPI_Abort(...)` runs before `mat_mult_mpi` is ever
called, hence before any scatter, broadcast or multiplication.  `none`
models the group-wide abort; `main` passes `n = w = m`. -/
def mpi_startup (mat1 mat2 result : Nat → Nat) (m world_size : Nat) :
    Option (Int × (Nat → Nat)) :=
  if m % world_size ≠ 0 then none
  else some (mat_mult_mpi mat1 mat2 result m m m world_size)

/-- Block size of the OpenCL tiled kernels (matmult-cl.cl line 19). -/
def BLOCK_SIZE : Nat := 16

/-- The value the element-parallel OpenCL kernel `matmult`
(matmult-cl.cl lines 30-43) computes for the work-item `(i, j)`:
the same reduction loop as `dot`, written to `result[i*M+j]`. -/
def matmult_cell (mat1 mat2 : Nat → Int) (M N W i j : Nat) : Int :=
  dot mat1 mat2 W N i j

/-- The value the block-staged OpenCL kernel `matmult2`
(matmult-cl.cl lines 54-99) computes for the work-item `(i, j)`:
with `groupi = i / 16`, `loci = i % 16` (and likewise for `j`), the
outer loop advances `off1` from `M*16*groupi` by 16 while it stays below
`M*16*groupi + M`, i.e. `ceil(M/16)` iterations; each iteration stages
`local_row[a*16+b] = mat1[off1 + a*M + b]` and
`local_col[a*16+b] = mat2[off2 + b*W + a]` and accumulates
`tmp += local_row[loci*16+k] * local_col[locj*16+k]` for `k < 16`. -/
def matmult2_cell (mat1 mat2 : Nat → Int) (M N W i j : Nat) : Int :=
  (List.range ((M + (BLOCK_SIZE - 1)) / BLOCK_SIZE)).foldl
    (fun tmp t =>
      (List.range BLOCK_SIZE).foldl
        (fun tmp k =>
          wrap32 (tmp + wrap32 (
            mat1 (M * BLOCK_SIZE * (i / BLOCK_SIZE) + BLOCK_SIZE * t
                  + (i % BLOCK_SIZE) * M + k) *
            mat2 (BLOCK_SIZE * (j / BLOCK_SIZE) + BLOCK_SIZE * W * t
                  + k * W + (j % BLOCK_SIZE))))) tmp) 0

/-- The `mat_init` pattern of the uint64 variants: `mat[i] = i`. -/
def mat_init_seq : Nat → Nat := fun i => i

/-- The `mat_init` pattern read as `int` values. -/
def mat_init_seqI : Nat → Int := fun i => (i : Int)

/-- An all-zero initial output buffer (`uint64_t`). -/
def zeros64 : Nat → Nat := fun _ => 0

/-- An all-zero initial output buffer (`int`). -/
def zerosI : Nat → Int := fun _ => 0

/-- An all-ones `int` matrix. -/
def onesI : Nat → Int := fun _ => 1

/-- A 2x3 `int` matrix with a single 1 at row 0, column 2. -/
def matA23 : Nat → Int := fun p => if p = 2 then 1 else 0

/-- A 3x3 `int` matrix with a single 5 at row 2, column 2. -/
def matB33 : Nat → Int := fun p => if p = 8 then 5 else 0

/-! ## Arithmetic helper lemmas -/

/-- `wrap32` only depends on its argument modulo 2^32. -/
theorem wrap32_congr {a b : Int} (h : a % 4294967296 = b % 4294967296) :
    wrap32 a = wrap32 b := by
  unfold wrap32
  omega

/-- `wrap32` preserves the residue modulo 2^32. -/
theorem wrap32_emod (x : Int) : wrap32 x % 4294967296 = x % 4294967296 := by
  unfold wrap32
  omega

/-- A fold that wraps each partial 32-bit accumulation equals the wrap of
the full mathematical sum. -/
theorem foldl_wrap32 (f : Nat → Int) (c : Nat) :
    (List.range c).foldl (fun tmp k => wrap32 (tmp + wrap32 (f k))) 0
      = wrap32 (∑ k in Finset.range c, f k) := by
  induction c with
  | zero =>
      simp [wrap32]
  | succ c ih =>
      rw [List.range_succ, List.foldl_append, ih, Finset.sum_range_succ]
      simp only [List.foldl_cons, List.foldl_nil]
      apply wrap32_congr
      rw [Int.add_emod, wrap32_emod, wrap32_emod, ← Int.add_emod]

/-- A fold that reduces each partial 64-bit accumulation modulo 2^64
equals the full mathematical sum modulo 2^64. -/
theorem foldl_mod64 (f : Nat → Nat) (c : Nat) :
    (List.range c).foldl (fun tmp k => (tmp + f k % 2 ^ 64) % 2 ^ 64) 0
      = (∑ k in Finset.range c, f k) % 2 ^ 64 := by
  induction c with
  | zero =>
      simp
  | succ c ih =>
      rw [List.range_succ, List.foldl_append, ih, Finset.sum_range_succ]
      simp only [List.foldl_cons, List.foldl_nil]
      conv_rhs => rw [Nat.add_mod]

/-- Closed form of the `int` reduction loop: the 32-bit accumulator holds
the wrap of the mathematical dot product. -/
theorem dot_eq_wrap (mat1 mat2 : Nat → Int) (w n i j : Nat) :
    dot mat1 mat2 w n i j
      = wrap32 (∑ k in Finset.range w, mat1 (i * w + k) * mat2 (k * n + j)) := by
  unfold dot
  exact foldl_wrap32 (fun k => mat1 (i * w + k) * mat2 (k * n + j)) w

/-- Closed form of the `uint64_t` reduction loop. -/
theorem dot64_eq_mod (mat1 mat2 : Nat → Nat) (w n i j : Nat) :
    dot64 mat1 mat2 w n i j
      = (∑ k in Finset.range w, mat1 (i * w + k) * mat2 (k * n + j)) % 2 ^ 64 := by
  unfold dot64
  exact foldl_mod64 (fun k => mat1 (i * w + k) * mat2 (k * n + j)) w

/-- With both column offsets below the stride, the flat index determines
the row and the column. -/
theorem resultIndex_inj {s i j i2 j2 : Nat} (hj : j < s) (hj2 : j2 < s)
    (h : resultIndex s i j = resultIndex s i2 j2) : i = i2 ∧ j = j2 := by
  have hs : 0 < s := Nat.lt_of_le_of_lt (Nat.zero_le j) hj
  unfold resultIndex at h
  have hdiv : (i * s + j) / s = i := by
    rw [Nat.mul_comm i s, Nat.mul_add_div hs, Nat.div_eq_of_lt hj, Nat.add_zero]
  have hdiv2 : (i2 * s + j2) / s = i2 := by
    rw [Nat.mul_comm i2 s, Nat.mul_add_div hs, Nat.div_eq_of_lt hj2, Nat.add_zero]
  have hmod : (i * s + j) % s = j := by
    rw [Nat.mul_comm i s, Nat.mul_add_mod, Nat.mod_eq_of_lt hj]
  have hmod2 : (i2 * s + j2) % s = j2 := by
    rw [Nat.mul_comm i2 s, Nat.mul_add_mod, Nat.mod_eq_of_lt hj2]
  constructor
  · rw [← hdiv, ← hdiv2, h]
  · rw [← hmod, ← hmod2, h]

/-! ## Write/no-clobber lemmas for the loop nests -/

/-- Unfolding one step of a row of writes. -/
theorem writeRow_succ {α : Type} (n stride : Nat) (v : Nat → Nat → α)
    (i : Nat) (buf : Nat → α) :
    writeRow (n + 1) stride v i buf
      = store (writeRow n stride v i buf) (resultIndex stride i n) (v i n) := by
  unfold writeRow
  rw [List.range_succ, List.foldl_append]
  rfl

/-- A row of writes puts `v i j` at its own index. -/
theorem writeRow_self {α : Type} {n stride : Nat} (v : Nat → Nat → α)
    (i : Nat) (buf : Nat → α) {j : Nat} (hj : j < n) :
    writeRow n stride v i buf (resultIndex stride i j) = v i j := by
  induction n with
  | zero => omega
  | succ n ih =>
      rw [writeRow_succ]
      by_cases hjn : j = n
      · subst hjn
        simp [store]
      · have hne : resultIndex stride i j ≠ resultIndex stride i n := by
          unfold resultIndex
          omega
        simp only [store, if_neg hne]
        exact ih (by omega)

/-- A row of writes leaves every position outside the row untouched. -/
theorem writeRow_ne {α : Type} {n stride : Nat} (v : Nat → Nat → α)
    (i : Nat) (buf : Nat → α) {p : Nat}
    (hp : ∀ j, j < n → p ≠ resultIndex stride i j) :
    writeRow n stride v i buf p = buf p := by
  induction n with
  | zero => rfl
  | succ n ih =>
      rw [writeRow_succ]
      simp only [store, if_neg (hp n (Nat.lt_succ_self n))]
      exact ih (fun j hj => hp j (Nat.lt_succ_of_lt hj))

/-- A batch of rows leaves every position outside those rows untouched. -/
theorem writeRowsList_ne {α : Type} {n stride : Nat} (v : Nat → Nat → α)
    {rows : List Nat} (buf : Nat → α) {p : Nat}
    (hp : ∀ i ∈ rows, ∀ j, j < n → p ≠ resultIndex stride i j) :
    writeRowsList n stride v rows buf p = buf p := by
  induction rows generalizing buf with
  | nil => rfl
  | cons i rest ih =>
      show writeRowsList n stride v rest (writeRow n stride v i buf) p = buf p
      rw [ih (writeRow n stride v i buf)
        (fun i2 h2 => hp i2 (List.mem_cons_of_mem i h2))]
      exact writeRow_ne v i buf (hp i (List.mem_cons_self i rest))

/-- If the target cell's row occurs once in the batch and no other listed
row can produce its flat index, the batch puts `v i j` there. -/
theorem writeRowsList_eval {α : Type} {n stride : Nat} (v : Nat → Nat → α)
    {rows : List Nat} (buf : Nat → α) {i j : Nat}
    (hnd : rows.Nodup) (hmem : i ∈ rows) (hj : j < n)
    (hsep : ∀ i2 ∈ rows, i2 ≠ i → ∀ j2, j2 < n →
      resultIndex stride i j ≠ resultIndex stride i2 j2) :
    writeRowsList n stride v rows buf (resultIndex stride i j) = v i j := by
  induction rows generalizing buf with
  | nil => simp at hmem
  | cons i2 rest ih =>
      by_cases hii : i2 = i
      · subst hii
        have hnotmem : i2 ∉ rest := (List.nodup_cons.mp hnd).1
        show writeRowsList n stride v rest (writeRow n stride v i2 buf)
          (resultIndex stride i2 j) = v i2 j
        rw [writeRowsList_ne v (writeRow n stride v i2 buf)
          (fun i3 h3 j3 hj3 =>
            hsep i3 (List.mem_cons_of_mem i2 h3)
              (fun he => hnotmem (he ▸ h3)) j3 hj3)]
        exact writeRow_self v i2 buf hj
      · have hmem2 : i ∈ rest := by
          rcases List.mem_cons.mp hmem with h | h
          · exact absurd h.symm hii
          · exact h
        show writeRowsList n stride v rest (writeRow n stride v i2 buf)
          (resultIndex stride i j) = v i j
        exact ih (writeRow n stride v i2 buf)
          (List.nodup_cons.mp hnd).2 hmem2
          (fun i3 h3 => hsep i3 (List.mem_cons_of_mem i2 h3))

/-- The row-range loop nest writes `v i j` at `i*stride+j` whenever the
column count does not exceed the stride (so flat indices of distinct
rows cannot collide). -/
theorem writeRows_eval {α : Type} {lo hi n stride : Nat} (v : Nat → Nat → α)
    (buf : Nat → α) {i j : Nat} (hns : n ≤ stride)
    (hlo : lo ≤ i) (hhi : i < hi) (hj : j < n) :
    writeRows lo hi n stride v buf (resultIndex stride i j) = v i j := by
  unfold writeRows
  apply writeRowsList_eval v buf
  · exact (List.nodup_range (hi - lo)).map (fun a b hab => by omega)
  · refine List.mem_map.mpr ⟨i - lo, List.mem_range.mpr (by omega), by omega⟩
  · exact hj
  · intro i2 h2 hne j2 hj2 heq
    have := resultIndex_inj (Nat.lt_of_lt_of_le hj hns)
      (Nat.lt_of_lt_of_le hj2 hns) heq
    exact hne this.1.symm

/-- The row-range loop nest leaves rows outside `[lo, hi)` untouched. -/
theorem writeRows_ne {α : Type} {lo hi n stride : Nat} (v : Nat → Nat → α)
    (buf : Nat → α) {p : Nat}
    (hp : ∀ i, lo ≤ i → i < hi → ∀ j, j < n → p ≠ resultIndex stride i j) :
    writeRows lo hi n stride v buf p = buf p := by
  unfold writeRows
  apply writeRowsList_ne
  intro i hi2 j hj
  rcases List.mem_map.mp hi2 with ⟨t, ht, rfl⟩
  exact hp (lo + t) (by omega) (by have := List.mem_range.mp ht; omega) j hj

/-! ## Claim theorems -/

set_option maxRecDepth 8192 in
/-- Claim C1 (code bug): the spec demands that the pthread multiply equal
the naive reference for every square input and every thread count
`T >= 1`, but at `m = n = w = 3`, `threads = 2` the workers' step is
`3 / 2 = 1`, so only rows 0 and 1 are computed: both entry points report
success, yet the pthread output leaves cell (2,0) at its initial value 0
while the reference computes 69 there (inputs `mat[p] = p`). -/
theorem mat_mult_pthread_drops_rows :
    (mat_mult_pthread mat_init_seqI mat_init_seqI zerosI 3 3 3 2).1 = 0
    ∧ (mat_mult mat_init_seqI mat_init_seqI zerosI 3 3 3).1 = 0
    ∧ (mat_mult_pthread mat_init_seqI mat_init_seqI zerosI 3 3 3 2).2 (2 * 3 + 0) = 0
    ∧ (mat_mult mat_init_seqI mat_init_seqI zerosI 3 3 3).2 (2 * 3 + 0) = 69 := by
  refine ⟨by decide, by decide, by decide, by decide⟩

set_option maxRecDepth 8192 in
/-- Claim C2 (code bug): the spec demands that the worker row ranges
cover `[0, M)` with no gap, but at `M = 3`, `T = 2` the code's
`step = 3 / 2 = 1` assigns `[0,1)` and `[1,2)`: the union of all worker
ranges is `[0, 2)` and row 2 belongs to no worker. -/
theorem mat_mult_work_coverage_gap :
    (Finset.range 2).biUnion (workRange 3 2) = Finset.Ico 0 2
    ∧ (2 : Nat) < 3
    ∧ (2 : Nat) ∉ (Finset.range 2).biUnion (workRange 3 2) := by
  refine ⟨by decide, by decide, by decide⟩

/-- Claim C3 counterexample: with `m = 2`, `n = w = 3` (accepted, since
`n == w`), the write index `i*m+j` aliases cells (0,2) and (1,0) at flat
index 2, so the final buffer does not hold the contract value for cell
(0,2): the claimed sum is 5 but the buffer holds 0 (the later (1,0)
write), even though `mat_mult` returned success. -/
theorem mat_mult_nonsquare_alias :
    (mat_mult matA23 matB33 zerosI 2 3 3).1 = 0
    ∧ (mat_mult matA23 matB33 zerosI 2 3 3).2 (0 * 2 + 2)
        ≠ ∑ k in Finset.range 3, matA23 (0 * 3 + k) * matB33 (k * 3 + 2) := by
  refine ⟨by decide, by decide⟩

set_option maxRecDepth 8192 in
/-- Claim C3 (amended): for `n = w` and additionally `m = n` (square),
`mat_mult` returns 0 and the final output buffer holds, at every
`i*m+j` with `i < m`, `j < n`, the 32-bit wrapped dot product
`Σ_{k<w} A[i*w+k] * B[k*n+j]`. -/
theorem mat_mult_correct_square (mat1 mat2 result : Nat → Int) (m n w : Nat)
    (hnw : n = w) (hmn : m = n) :
    (mat_mult mat1 mat2 result m n w).1 = 0
    ∧ ∀ i j, i < m → j < n →
        (mat_mult mat1 mat2 result m n w).2 (i * m + j)
          = wrap32 (∑ k in Finset.range w, mat1 (i * w + k) * mat2 (k * n + j)) := by
  subst hnw
  subst hmn
  have hne : ¬ (m ≠ m) := by simp
  constructor
  · simp [mat_mult]
  · intro i j hi hj
    simp only [mat_mult, if_neg hne]
    have hR := writeRows_eval (fun i j => dot mat1 mat2 m m i j) result
      (le_refl m) (Nat.zero_le i) hi hj
    simp only [resultIndex] at hR
    rw [hR, dot_eq_wrap]

/-- Witness for `mat_mult_correct_square` at a concrete square input. -/
theorem mat_mult_correct_square_witness :
    (mat_mult mat_init_seqI mat_init_seqI zerosI 2 2 2).2 (1 * 2 + 1)
      = wrap32 (∑ k in Finset.range 2,
          mat_init_seqI (1 * 2 + k) * mat_init_seqI (k * 2 + 1)) :=
  (mat_mult_correct_square mat_init_seqI mat_init_seqI zerosI 2 2 2
    rfl rfl).2 1 1 (by decide) (by decide)

set_option maxRecDepth 8192 in
/-- Claim C4 (code bug): the spec demands that the block-staged kernel
`matmult2` equal the naive kernel `matmult` at a non-multiple-of-block
dimension such as `M = N = W = 17` with `B = 16`, but the tiled loop has
no boundary masking: it runs `ceil(17/16) = 2` full 16-wide block
passes, reading past each row's end, so on all-ones inputs work-item
(0,0) accumulates 32 products where the naive kernel computes 17. -/
theorem matmult2_boundary_mismatch :
    matmult2_cell onesI onesI 17 17 17 0 0 = 32
    ∧ matmult_cell onesI onesI 17 17 17 0 0 = 17
    ∧ matmult2_cell onesI onesI 17 17 17 0 0
        ≠ matmult_cell onesI onesI 17 17 17 0 0 := by
  refine ⟨by decide, by decide, by decide⟩

/-- Claim C6: each multiply entry point returns the dimension-mismatch
failure `-1` exactly when the inner dimensions disagree (`n != w`); no
other property of the inputs (such as `m` differing from `n`) causes a
checked failure. -/
theorem mult_neg_one_iff_dim_mismatch (mat1 mat2 result : Nat → Int)
    (u1 u2 r64 : Nat → Nat) (m n w T W : Nat) :
    ((mat_mult mat1 mat2 result m n w).1 = -1 ↔ n ≠ w)
    ∧ ((mat_mult_pthread mat1 mat2 result m n w T).1 = -1 ↔ n ≠ w)
    ∧ ((mat_mult_mpi u1 u2 r64 m n w W).1 = -1 ↔ n ≠ w) := by
  by_cases h : n = w <;>
    simp [mat_mult, mat_mult_pthread, mat_mult_mpi, h]

/-- Claim C7: when the row count is not divisible by the worker count,
the MPI program's startup check aborts the whole group before any
scatter, broadcast or multiplication is performed (the model returns
`none` without ever invoking `mat_mult_mpi`), rather than silently
truncating the computation. -/
theorem mpi_startup_aborts (mat1 mat2 result : Nat → Nat) (m W : Nat)
    (h : ¬ W ∣ m) :
    mpi_startup mat1 mat2 result m W = none := by
  have hm : m % W ≠ 0 := fun hc => h (Nat.dvd_of_mod_eq_zero hc)
  simp [mpi_startup, hm]

/-- Witness for `mpi_startup_aborts` at `m = 3`, `world_size = 2`. -/
theorem mpi_startup_aborts_witness :
    mpi_startup mat_init_seq mat_init_seq zeros64 3 2 = none :=
  mpi_startup_aborts mat_init_seq mat_init_seq zeros64 3 2 (by decide)

/-- Claim C8: in the `int`-element kernels the accumulator is an `int`
and in the `uint64_t` kernels a `uint64_t` (each at least as wide as the
element type), and the per-cell accumulation equals the full
mathematical dot product reduced by the accumulator's modulus — 32-bit
two's-complement wraparound for `int`, modulo `2^64` for `uint64_t` —
with no saturation and no error path. -/
theorem accumulation_wraps_modulo (mat1 mat2 : Nat → Int)
    (u1 u2 : Nat → Nat) (w n i j : Nat) :
    dot mat1 mat2 w n i j
      = wrap32 (∑ k in Finset.range w, mat1 (i * w + k) * mat2 (k * n + j))
    ∧ dot64 u1 u2 w n i j
      = (∑ k in Finset.range w, u1 (i * w + k) * u2 (k * n + j)) % 2 ^ 64 :=
  ⟨dot_eq_wrap mat1 mat2 w n i j, dot64_eq_mod u1 u2 w n i j⟩

/-- Claim C9: on a dimension mismatch (`n != w`) every multiply entry
point returns before performing any write: the output buffer of each
model is exactly the caller's initial buffer. -/
theorem dim_mismatch_preserves_output (mat1 mat2 result : Nat → Int)
    (u1 u2 r64 : Nat → Nat) (m n w T W : Nat) (h : n ≠ w) :
    (mat_mult mat1 mat2 result m n w).2 = result
    ∧ (mat_mult_pthread mat1 mat2 result m n w T).2 = result
    ∧ (mat_mult_mpi u1 u2 r64 m n w W).2 = r64 := by
  simp [mat_mult, mat_mult_pthread, mat_mult_mpi, h]

/-- Witness for `dim_mismatch_preserves_output` at `n = 2`, `w = 3`. -/
theorem dim_mismatch_preserves_output_witness :
    (mat_mult mat_init_seqI mat_init_seqI zerosI 2 2 3).2 = zerosI
    ∧ (mat_mult_pthread mat_init_seqI mat_init_seqI zerosI 2 2 3 4).2 = zerosI
    ∧ (mat_mult_mpi mat_init_seq mat_init_seq zeros64 2 2 3 2).2 = zeros64 :=
  dim_mismatch_preserves_output mat_init_seqI mat_init_seqI zerosI
    mat_init_seq mat_init_seq zeros64 2 2 3 4 2 (by decide)

/-- Claim C10: every kernel writes cell `(i, j)` at flat index `i*m+j`
(stride `m`, the row count).  For square `m = n = w` all write indices
stay below `m*m` and distinct cells map to distinct indices; but for
`m = 2`, `n = w = 3` the distinct cells (0,2) and (1,0) collide at flat
index 2, and for `m = 3`, `n = w = 2` the write index of cell (2,1)
reaches 7 ≥ 6 = m*n, past the output buffer. -/
theorem resultIndex_square_safe_nonsquare_unsafe :
    (∀ m i j i2 j2, i < m → j < m → i2 < m → j2 < m →
      resultIndex m i j < m * m
      ∧ (resultIndex m i j = resultIndex m i2 j2 → i = i2 ∧ j = j2))
    ∧ (resultIndex 2 0 2 = resultIndex 2 1 0
        ∧ ¬ (((0 : Nat), (2 : Nat)) = ((1 : Nat), (0 : Nat))))
    ∧ 3 * 2 ≤ resultIndex 3 2 1 := by
  refine ⟨?_, by decide, by decide⟩
  intro m i j i2 j2 hi hj hi2 hj2
  constructor
  · show i * m + j < m * m
    have h1 : i * m + j < (i + 1) * m := by
      rw [Nat.succ_mul]
      omega
    exact Nat.lt_of_lt_of_le h1 (Nat.mul_le_mul_right m hi)
  · exact fun h => resultIndex_inj hj hj2 h

/-- Witness for the universal part of
`resultIndex_square_safe_nonsquare_unsafe` at `m = 2`, cell (1,1). -/
theorem resultIndex_square_witness :
    resultIndex 2 1 1 < 2 * 2
    ∧ (resultIndex 2 1 1 = resultIndex 2 1 1 → 1 = 1 ∧ 1 = 1) :=
  resultIndex_square_safe_nonsquare_unsafe.1 2 1 1 1 1
    (by decide) (by decide) (by decide) (by decide)
/-- Claim C5: for square `m` divisible by the worker count `W`, the
distributed multiply's gathered output — rank-order concatenation of the
per-rank partial buffers computed from the scattered row slices of
`mat1` and the broadcast `mat2` — agrees element-wise with the
single-process naive computation on the same inputs. -/
theorem mat_mult_mpi_refines (mat1 mat2 result : Nat → Nat) (m W : Nat)
    (hW : 0 < W) (hdvd : W ∣ m) :
    (mat_mult_mpi mat1 mat2 result m m m W).1 = 0
    ∧ ∀ i j, i < m → j < m →
        (mat_mult_mpi mat1 mat2 result m m m W).2 (i * m + j)
          = (mat_mult64 mat1 mat2 result m m m).2 (i * m + j) := by
  have hne : ¬ (m ≠ m) := by simp
  constructor
  · simp [mat_mult_mpi]
  · intro i j hi hj
    have hm : 0 < m := Nat.lt_of_le_of_lt (Nat.zero_le i) hi
    have hWs : W * (m / W) = m := Nat.mul_div_cancel' hdvd
    have hspos : 0 < m / W := Nat.div_pos (Nat.le_of_dvd hm hdvd) hW
    have hmm2 : m * m = W * (m / W * m) := by
      rw [← Nat.mul_assoc, hWs]
    have hnbEq : m * m / W = m / W * m := by
      rw [hmm2, Nat.mul_div_cancel_left _ hW]
    have hilt : i * m + j < m * m := by
      have h1 : i * m + j < (i + 1) * m := by
        rw [Nat.succ_mul]
        omega
      exact Nat.lt_of_lt_of_le h1 (Nat.mul_le_mul_right m hi)
    have hia : m / W * (i / (m / W)) + i % (m / W) = i := Nat.div_add_mod i (m / W)
    have halt : i % (m / W) < m / W := Nat.mod_lt i hspos
    have hrW : i / (m / W) < W :=
      (Nat.div_lt_iff_lt_mul hspos).mpr
        (Nat.lt_of_lt_of_le hi (Nat.le_of_eq hWs.symm))
    have hp0 : i * m + j = m / W * m * (i / (m / W)) + (i % (m / W) * m + j) := by
      calc i * m + j
          = (m / W * (i / (m / W)) + i % (m / W)) * m + j := by rw [hia]
        _ = m / W * m * (i / (m / W)) + (i % (m / W) * m + j) := by ring
    have hremlt : i % (m / W) * m + j < m / W * m := by
      have h1 : i % (m / W) * m + j < (i % (m / W) + 1) * m := by
        rw [Nat.succ_mul]
        omega
      exact Nat.lt_of_lt_of_le h1 (Nat.mul_le_mul_right m halt)
    have hsmpos : 0 < m / W * m := Nat.mul_pos hspos hm
    have hdivp : (i * m + j) / (m / W * m) = i / (m / W) := by
      rw [hp0, Nat.mul_add_div hsmpos, Nat.div_eq_of_lt hremlt, Nat.add_zero]
    have hmodp : (i * m + j) % (m / W * m) = i % (m / W) * m + j := by
      rw [hp0, Nat.mul_add_mod, Nat.mod_eq_of_lt hremlt]
    have hlt2 : i * m + j < W * (m * m / W) := by
      rw [hnbEq, ← hmm2]
      exact hilt
    simp only [mat_mult_mpi, mat_mult64, if_neg hne]
    rw [if_pos hlt2, hnbEq, hdivp, hmodp]
    have hRnaive := writeRows_eval (fun i2 j2 => dot64 mat1 mat2 m m i2 j2)
      result (le_refl m) (Nat.zero_le i) hi hj
    simp only [resultIndex] at hRnaive
    rw [hRnaive]
    unfold mpi_local_res
    have hRloc := writeRows_eval
      (fun i2 j2 => dot64 (mpi_rank_slice mat1 (m * m / W) (i / (m / W)))
        mat2 m m i2 j2)
      (fun _ => 0) (le_refl m) (Nat.zero_le (i % (m / W))) halt hj
    simp only [resultIndex] at hRloc
    rw [hRloc, dot64_eq_mod, dot64_eq_mod]
    congr 1
    apply Finset.sum_congr rfl
    intro k hk
    have hread : mpi_rank_slice mat1 (m * m / W) (i / (m / W))
        (i % (m / W) * m + k) = mat1 (i * m + k) := by
      unfold mpi_rank_slice
      congr 1
      rw [hnbEq]
      calc i / (m / W) * (m / W * m) + (i % (m / W) * m + k)
          = (m / W * (i / (m / W)) + i % (m / W)) * m + k := by ring
        _ = i * m + k := by rw [hia]
    rw [hread]

/-- Witness for `mat_mult_mpi_refines` at `m = 4`, `W = 2`, cell (2,3),
inputs `mat[p] = p`. -/
theorem mat_mult_mpi_refines_witness :
    (mat_mult_mpi mat_init_seq mat_init_seq zeros64 4 4 4 2).2 (2 * 4 + 3)
      = (mat_mult64 mat_init_seq mat_init_seq zeros64 4 4 4).2 (2 * 4 + 3) :=
  (mat_mult_mpi_refines mat_init_seq mat_init_seq zeros64 4 2
    (by decide) (by decide)).2 2 3 (by decide) (by decide)
